import Mathlib

/-!
Verification development for the pc1600-to-json patch codec.

The Python sources under src/pc1600/ are shallowly embedded here:
bytes become lists of natural numbers (each expected < 256), bytearray
construction failures, IndexError, KeyError, struct.error and the two
distinct ValueError messages become constructors of an explicit error
type, and every fallible operation returns Except.
-/

namespace PC1600

/-- A byte buffer: Python bytes / bytearray / Data, as a list of Nats. -/
abbrev Data := List Nat

/-- The distinct ways the Python code can raise during codec operations:
UnsupportedFormatError, IndexError (out-of-range subscript), KeyError
(record-type dict lookup miss), struct.error (struct.unpack on a short
buffer), ValueError from a bytearray fed a value outside 0..255, and the
ValueError("Data length != size field!") raised by SysexPatch. -/
inductive PyErr
  | unsupportedFormat
  | indexError
  | keyError
  | structError
  | valueRange
  | sizeMismatch
deriving DecidableEq

/-- utils.nibbles_to_int: (c1 << 4) + c2. -/
def nibbles_to_int (c1 c2 : Nat) : Nat := (c1 <<< 4) + c2

/-- utils.int_to_nibbles: bytes([b >> 4, b & 0xf]). -/
def int_to_nibbles (b : Nat) : List Nat := [b >>> 4, b &&& 0xf]

/-- utils.short_to_bytes: bytes([b >> 8, b & 0xff]). -/
def short_to_bytes (b : Nat) : List Nat := [b >>> 8, b &&& 0xff]

/-- utils.bitmap_ids: ids 1..8 from the set bits of the first byte and
ids 9..16 from the set bits of the second; each bit test is the source's
truthiness test of 0x1 & (x >> i). -/
def bitmap_ids (a b : Nat) : List Nat :=
  (((List.range 8).filter fun i => 1 &&& a >>> i != 0).map fun i => i + 1) ++
    (((List.range 8).filter fun i => 1 &&& b >>> i != 0).map fun i => i + 9)

/-- The fixed 5-byte sysex header fingerprint F0 00 00 1B 0B. -/
def fingerprint : List Nat := [0xF0, 0x00, 0x00, 0x1B, 0x0B]

/-- The nibble-pair recombination loop of unpack_sysex: indices
7, 9, ... while i < len - 1, pairing (data[i], data[i+1]).  Expressed on
the suffix starting at index 7: keep combining while at least two
elements remain (so an odd nibble region pairs its final byte with the
trailing footer byte, exactly as the Python range does). -/
def nibblePairs : List Nat → List Nat
  | c1 :: c2 :: rest => nibbles_to_int c1 c2 :: nibblePairs rest
  | _ => []

/-- data.unpack_sysex: checks fingerprint, command byte (index 6) and the
final byte, then recombines nibble pairs; building the resulting Data
(a bytearray) raises ValueError when a combined value exceeds 255. -/
def unpack_sysex (d : List Nat) : Except PyErr Data :=
  if d.take 5 ≠ fingerprint then .error .unsupportedFormat
  else
    match d[6]? with
    | none => .error .indexError
    | some c =>
      if c = 0x01 then .error .unsupportedFormat
      else if c ≠ 0x04 then .error .unsupportedFormat
      else if d.getLast? ≠ some 0xF7 then .error .unsupportedFormat
      else
        let payload := nibblePairs (d.drop 7)
        if payload.all (· < 256) then .ok payload else .error .valueRange

/-- utils.pack_sysex: header, channel, command byte 4, each payload byte
expanded into its two nibbles, footer F7. -/
def pack_sysex (raw : Data) (global_channel : Nat) : List Nat :=
  fingerprint ++ [global_channel, 0x04] ++ (raw.map int_to_nibbles).flatten ++ [0xF7]

/-- Data.bytearray: the Python slice self[offset : offset + length],
which clamps at the end of the buffer. -/
def Data.bytearray (d : Data) (offset length : Nat) : Data :=
  (d.drop offset).take length

/-- Python subscript self[i] for a non-negative index: IndexError when
out of range. -/
def Data.byte (d : Data) (i : Nat) : Except PyErr Nat :=
  match d[i]? with
  | some b => .ok b
  | none => .error .indexError

/-- Two's-complement reading of a 16-bit big-endian value, as
struct.unpack(">h") produces. -/
def toSigned16 (u : Nat) : Int :=
  if u < 0x8000 then (u : Int) else (u : Int) - 0x10000

/-- Data.short: struct.unpack(">h", self[offset : offset + 2]); the
unpack raises struct.error unless the slice holds exactly 2 bytes. -/
def Data.short (d : Data) (offset : Nat) : Except PyErr Int :=
  match Data.bytearray d offset 2 with
  | [hi, lo] => .ok (toSigned16 (hi * 256 + lo))
  | _ => .error .structError

/-- The character loop of Data.string: raise UnsupportedFormatError on
the first byte outside 32..126, otherwise append chr(c). -/
def strDecode : List Nat → Except PyErr String
  | [] => .ok ("")
  | c :: rest =>
    if c < 32 ∨ 126 < c then .error .unsupportedFormat
    else
      match strDecode rest with
      | .ok s => .ok ⟨Char.ofNat c :: s.data⟩
      | .error e => .error e

/-- Data.string: empty result for length 0 without reading, otherwise
decode the (clamping) slice character by character. -/
def Data.string (d : Data) (offset length : Nat) : Except PyErr String :=
  if length = 0 then .ok ("")
  else strDecode (Data.bytearray d offset length)

/-- data.data_factory: concatenates its arguments (ints become one-byte
lists) into a bytearray; ValueError when any value is not a byte. -/
def data_factory (args : List (List Nat)) : Except PyErr Data :=
  if args.flatten.all (· < 256) then .ok args.flatten else .error .valueRange

/-- patch.Section: the five fixed control sections. -/
inductive Section
  | faders
  | cvs
  | buttons
  | data_wheel
  | setup
deriving DecidableEq

/-- record.Record, reduced to what the Patch scanner stores: the owning
section and the record's body bytes (the length-prefixed slice).  The
per-variant field accessors are separate functions over the body. -/
structure Record where
  «section» : Section
  data : Data
deriving DecidableEq

/-- Number of type tags each section's dispatch dict accepts:
fader_types has keys 0..3, button_types 0..9, data_wheel_types and
setup_types 0..1 (enumerate over the name_to_*_id tables). -/
def sectionTagCount : Section → Nat
  | .faders => 4
  | .cvs => 4
  | .buttons => 10
  | .data_wheel => 2
  | .setup => 2

/-- patch.SysexPatch.record_factory: read the 1-byte length prefix at
offset - 1 (IndexError when past the end), slice that many bytes (the
slice clamps), read the low nibble of the first body byte (IndexError on
an empty body), and look the tag up in the section's dict (KeyError when
the tag has no entry). -/
def record_factory (d : Data) (offset : Nat) (sec : Section) : Except PyErr Record :=
  match d[offset - 1]? with
  | none => .error .indexError
  | some pfx =>
    match (Data.bytearray d offset pfx)[0]? with
    | none => .error .indexError
    | some b0 =>
      if (int_to_nibbles b0).getD 1 0 < sectionTagCount sec then
        .ok ⟨sec, Data.bytearray d offset pfx⟩
      else .error .keyError

/-- The section-threshold update at the top of the parse loop (the
if/elif chain on record_id). -/
def advanceSection (rid : Nat) (sec : Section) : Section :=
  if rid = 17 then Section.cvs
  else if rid = 19 then Section.buttons
  else if rid = 35 then Section.data_wheel
  else if rid = 36 then Section.setup
  else sec

/-- The while-loop of patch.SysexPatch.parse_records.  State: the cursor
before its per-iteration increment, the record index, and the current
section (updated at the fixed thresholds 17/19/35/36).  The loop breaks
exactly when the cursor lands on the end of the buffer.  The fuel only
bounds the iteration count; parse_records supplies more fuel than the
loop can consume, since every iteration moves the cursor forward. -/
def parseLoop (d : Data) : Nat → Nat → Nat → Section → Except PyErr (List Record)
  | 0, _, _, _ => .error .indexError
  | fuel + 1, offset0, rid, sec =>
    match record_factory d (offset0 + 1) (advanceSection rid sec) with
    | .error e => .error e
    | .ok r =>
      if offset0 + 1 + r.data.length = d.length then .ok [r]
      else
        match parseLoop d fuel (offset0 + 1 + r.data.length) (rid + 1)
            (advanceSection rid sec) with
        | .ok rs => .ok (r :: rs)
        | .error e => .error e

/-- patch.SysexPatch.parse_records: scan from cursor 18, record index 1,
section Faders. -/
def parse_records (d : Data) : Except PyErr (List Record) :=
  parseLoop d (d.length + 1) 18 1 Section.faders

/-- record.Record.flatten: the 1-byte length prefix followed by the body
(self.data[:self.length()] is all of data). -/
def Record.flatten (r : Record) : List Nat := r.data.length :: r.data

/-- The b"".join of Record.flatten over a record list, as
patch.SysexPatch.flatten builds its record area. -/
def flattenRecords (rs : List Record) : List Nat := (rs.map Record.flatten).flatten

/-- The size-field check of patch.SysexPatch.__init__: the declared
short at offset 16 must equal the payload length minus the 16-byte name
and the 2-byte size field, else ValueError("Data length != size field!"). -/
def checkSize (p : Data) : Except PyErr Unit :=
  match Data.short p 16 with
  | .error e => .error e
  | .ok sz => if (p.length : Int) - (16 + 2) ≠ sz then .error .sizeMismatch else .ok ()

/-- The part of SysexPatch.__init__ that runs on the recombined payload:
the size-field check, then parse_records. -/
def initFromPayload (p : Data) : Except PyErr (List Record) :=
  match checkSize p with
  | .error e => .error e
  | .ok _ => parse_records p

/-- patch.SysexPatch: the raw dump, the recombined payload, and the
parsed record list. -/
structure SysexPatch where
  raw_data : List Nat
  data : Data
  records : List Record
deriving DecidableEq

/-- patch.SysexPatch.__init__: unpack the sysex frame into the payload
(the Data construction rejects non-byte values), check the size field,
parse the records. -/
def SysexPatch.init (raw : List Nat) : Except PyErr SysexPatch :=
  match unpack_sysex raw with
  | .error e => .error e
  | .ok p =>
    match initFromPayload p with
    | .error e => .error e
    | .ok rs => .ok ⟨raw, p, rs⟩

/-- patch.SysexPatch.name: the 16-byte name field decoded as ASCII. -/
def SysexPatch.name (pt : SysexPatch) : Except PyErr String :=
  Data.string pt.data 0 16

/-- patch.SysexPatch.flatten: concatenated record flattenings, prefixed
by the space-padded 16-byte name and the 2-byte record-area length. -/
def SysexPatch.flatten (pt : SysexPatch) : Except PyErr (List Nat) :=
  let raw := flattenRecords pt.records
  match SysexPatch.name pt with
  | .error e => .error e
  | .ok nm =>
    let nameBytes := nm.data.map Char.toNat
    .ok ((nameBytes ++ List.replicate (16 - nameBytes.length) 0x20) ++
      short_to_bytes raw.length ++ raw)

/-- patch.SysexPatch.global_channel: raw_data[5]. -/
def SysexPatch.global_channel (pt : SysexPatch) : Except PyErr Nat :=
  Data.byte pt.raw_data 5

/-- patch.SysexPatch.to_raw_sysex: pack_sysex(flatten(), global_channel). -/
def SysexPatch.to_raw_sysex (pt : SysexPatch) : Except PyErr (List Nat) :=
  match SysexPatch.flatten pt with
  | .error e => .error e
  | .ok fl =>
    match SysexPatch.global_channel pt with
    | .error e => .error e
    | .ok ch => .ok (pack_sysex fl ch)

/-- Canonical-scan predicate used to state the amended round-trip claim:
starting from a cursor position, every record's declared 1-byte length
fits entirely inside the buffer and the walk of length prefixes lands
exactly on the end.  This is the condition under which parse_records
performs no slice truncation. -/
def scanOK (d : Data) : Nat → Nat → Bool
  | 0, _ => false
  | fuel + 1, offset =>
    if offset = d.length then true
    else
      match d[offset]? with
      | none => false
      | some pfx =>
        decide (offset + 1 + pfx ≤ d.length) && scanOK d fuel (offset + 1 + pfx)

/-- record.Record.name as inherited by CC (name length is the high
nibble of the first body byte; name offset is 6 when the length is
nonzero, else 0). -/
def CC.name (d : Data) : Except PyErr String :=
  match Data.byte d 0 with
  | .error e => .error e
  | .ok b0 =>
    let nl := (int_to_nibbles b0).getD 0 0
    Data.string d (if nl ≠ 0 then 6 else 0) nl

/-- The structured-document item a CC record renders to (Record.to_dict
collects the variant's properties plus the class name; an empty name is
omitted, modelled as none). -/
structure CCDict where
  type : String
  min : Nat
  max : Nat
  channel : Nat
  cc : Nat
  mode : Nat
  name : Option String
deriving DecidableEq

/-- record.CC decode accessors assembled as Record.to_dict renders them:
min/max/channel/cc/mode are body bytes 1..5. -/
def CC.to_dict (d : Data) : Except PyErr CCDict :=
  match CC.name d, Data.byte d 1, Data.byte d 2, Data.byte d 3,
      Data.byte d 4, Data.byte d 5 with
  | .ok nm, .ok mn, .ok mx, .ok ch, .ok ccv, .ok md =>
    .ok ⟨"CC", mn, mx, ch, ccv, md, if nm = "" then none else some nm⟩
  | .error e, _, _, _, _, _ => .error e
  | _, .error e, _, _, _, _ => .error e
  | _, _, .error e, _, _, _ => .error e
  | _, _, _, .error e, _, _ => .error e
  | _, _, _, _, .error e, _ => .error e
  | _, _, _, _, _, .error e => .error e

/-- UTF-8 bytes of a name string as the packs' name.encode() produces;
for the printable-ASCII names the codec handles this is the list of
character codes. -/
def encodeName (s : String) : List Nat := s.data.map Char.toNat

/-- record.CC.pack: the name-length/type byte (type tag 1), the five
fixed fields, then the name bytes. -/
def CC.pack (name : String) (min max channel cc mode : Nat) : Except PyErr Data :=
  data_factory [[nibbles_to_int name.length 1], [min], [max], [channel],
    [cc], [mode], encodeName name]

/-- record.Master.pack: type tag 2; the bitmap value is the sum of
2^(id-1) over the fader ids, stored low byte (val_data[1]) first. -/
def Master.pack (name : String) (faders : List Nat) (wut : Nat) : Except PyErr Data :=
  let val := (faders.map fun v => 2 ^ (v - 1)).sum
  let vd := short_to_bytes val
  data_factory [[nibbles_to_int name.length 2], [vd.getD 1 0], [vd.getD 0 0],
    [wut], encodeName name]

/-- record.Master.faders: decode the two bitmap bytes (body bytes 1 and
2) back to fader ids. -/
def Master.faders (d : Data) : Except PyErr (List Nat) :=
  match Data.byte d 1, Data.byte d 2 with
  | .ok a, .ok b => .ok (bitmap_ids a b)
  | .error e, _ => .error e
  | _, .error e => .error e

/-- struct.pack(">h", n): two big-endian two's-complement bytes;
struct.error when the value does not fit a signed 16-bit integer. -/
def struct_pack_short (n : Int) : Except PyErr (List Nat) :=
  if -32768 ≤ n ∧ n < 32768 then
    .ok [(n % 65536).toNat / 256, (n % 65536).toNat % 256]
  else .error .structError

/-- record.String.pack: type tag 3, the param-format code (the source
looks the code up from the format's display string; the code is taken
directly here), packed min/max shorts, the length-prefixed sysex blob,
then the name bytes. -/
def StringRecord.pack (name : String) (param_format : Nat) (min max : Int)
    (sysex : List Nat) : Except PyErr Data :=
  match struct_pack_short min, struct_pack_short max with
  | .ok mn, .ok mx =>
    data_factory [[nibbles_to_int name.length 3], [param_format], mn, mx,
      [sysex.length], sysex, encodeName name]
  | .error e, _ => .error e
  | _, .error e => .error e

/-- record.Mute.pack: type tag 1, then the name bytes. -/
def Mute.pack (name : String) : Except PyErr Data :=
  data_factory [[nibbles_to_int name.length 1], encodeName name]

/-- record.Solo.pack: type tag 2, then the name bytes. -/
def Solo.pack (name : String) : Except PyErr Data :=
  data_factory [[nibbles_to_int name.length 2], encodeName name]

/-- record.ProgramChange.pack: type tag 3, channel, program, name. -/
def ProgramChange.pack (name : String) (channel program : Nat) : Except PyErr Data :=
  data_factory [[nibbles_to_int name.length 3], [channel], [program], encodeName name]

/-- record.NoteOnOff.pack: type tag 4, channel, note, velocity, name. -/
def NoteOnOff.pack (name : String) (channel note velocity : Nat) : Except PyErr Data :=
  data_factory [[nibbles_to_int name.length 4], [channel], [note], [velocity],
    encodeName name]

/-- record.ButtonString.pack: type tag 5, length-prefixed sysex, name. -/
def ButtonString.pack (name : String) (sysex : List Nat) : Except PyErr Data :=
  data_factory [[nibbles_to_int name.length 5], [sysex.length], sysex, encodeName name]

/-- record.StringPressRelease.pack: type tag 6, two length-prefixed
blobs (press then release), name. -/
def StringPressRelease.pack (name : String) (press release : List Nat) :
    Except PyErr Data :=
  data_factory [[nibbles_to_int name.length 6], [press.length], press,
    [release.length], release, encodeName name]

/-- record.StringToggle.pack: type tag 7, two length-prefixed blobs,
name. -/
def StringToggle.pack (name : String) (sysex1 sysex2 : List Nat) : Except PyErr Data :=
  data_factory [[nibbles_to_int name.length 7], [sysex1.length], sysex1,
    [sysex2.length], sysex2, encodeName name]

/-- record.SendFader.pack: type tag 8, name only. -/
def SendFader.pack (name : String) : Except PyErr Data :=
  data_factory [[nibbles_to_int name.length 8], encodeName name]

/-- record.SendScene.pack: type tag 9, the scene value, name. -/
def SendScene.pack (name : String) (value : Nat) : Except PyErr Data :=
  data_factory [[nibbles_to_int name.length 9], [value], encodeName name]

/-- record.Disabled.pack: a single zero byte; all keyword arguments
(including any name) are accepted and ignored (**_kwargs). -/
def Disabled.pack (_name : String) : Except PyErr Data :=
  data_factory [[0x00]]

/-- A program/volume value: either the "Off" sentinel or a number (the
source uses the string "Off" or an int). -/
inductive ProgVol
  | off
  | num (n : Nat)
deriving DecidableEq

/-- A bank value: folded n stands for the source string f"{n}m", num for
a plain int. -/
inductive Bank
  | folded (n : Nat)
  | num (n : Nat)
deriving DecidableEq

/-- Setup.pack's seven_bit_reverse: "Off" encodes to 0x7F, a number to
value + 0x80. -/
def seven_bit_reverse : ProgVol → Nat
  | .off => 0x7F
  | .num n => n + 0x80

/-- Setup.pack's folded_reverse: "{n}m" encodes to n - 1, a plain number
to value + 0x80. -/
def folded_reverse : Bank → Nat
  | .folded n => n - 1
  | .num n => n + 0x80

/-- Setup.channels' seven_bit: high bit set means value - 0x80, else the
"Off" sentinel. -/
def seven_bit (v : Nat) : ProgVol :=
  if v &&& 0x80 ≠ 0 then .num (v - 0x80) else .off

/-- Setup.channels' folded: high bit set means value - 0x80, else the
folded string f"{value + 1}m". -/
def folded (v : Nat) : Bank :=
  if v &&& 0x80 ≠ 0 then .num (v - 0x80) else .folded (v + 1)

/-- One channel's bank/program/volume settings. -/
structure ChannelCfg where
  bank : Bank
  program : ProgVol
  volume : ProgVol
deriving DecidableEq

/-- record.Setup.pack: name-length/type byte (tag 1); if any channels,
the 2-byte channel bitmap (low byte first) then 3 bytes per channel,
else two zero bytes; the 0xFE scene marker only for a truthy (present
and nonzero) scene; the length-prefixed sysex blob only for a truthy
(nonempty) sysex, else a zero length byte. -/
def Setup.pack (name : String) (channels : List (Nat × ChannelCfg))
    (scene : Option Nat) (sysex : List Nat) : Except PyErr Data :=
  let head : List Nat := [nibbles_to_int name.length 1]
  let chanPart : List Nat :=
    if channels.isEmpty then [0x00, 0x00]
    else
      let val := (channels.map fun c => 2 ^ (c.1 - 1)).sum
      let vd := short_to_bytes val
      [vd.getD 1 0, vd.getD 0 0] ++
        (channels.map fun c =>
          [folded_reverse c.2.bank, seven_bit_reverse c.2.program,
            seven_bit_reverse c.2.volume]).flatten
  let scenePart : List Nat :=
    match scene with
    | some s => if s ≠ 0 then [0xFE, s] else []
    | none => []
  let sysexPart : List Nat :=
    if sysex.isEmpty then [0x00] else sysex.length :: sysex
  data_factory [head, chanPart, scenePart, sysexPart, encodeName name]

/-- record.Setup._midi_channels: the bitmap at body bytes 1 and 2. -/
def Setup.midi_channels (d : Data) : Except PyErr (List Nat) :=
  match Data.byte d 1, Data.byte d 2 with
  | .ok a, .ok b => .ok (bitmap_ids a b)
  | .error e, _ => .error e
  | _, .error e => .error e

/-- The per-channel loop of record.Setup.channels: 3 bytes per selected
channel starting at offset 3. -/
def setupChanLoop (d : Data) : List Nat → Nat → Except PyErr (List (Nat × ChannelCfg))
  | [], _ => .ok []
  | c :: rest, offset =>
    match Data.byte d offset, Data.byte d (offset + 1), Data.byte d (offset + 2) with
    | .ok b, .ok pg, .ok vl =>
      match setupChanLoop d rest (offset + 3) with
      | .ok more => .ok ((c, ⟨folded b, seven_bit pg, seven_bit vl⟩) :: more)
      | .error e => .error e
    | .error e, _, _ => .error e
    | _, .error e, _ => .error e
    | _, _, .error e => .error e

/-- record.Setup.channels. -/
def Setup.channels (d : Data) : Except PyErr (List (Nat × ChannelCfg)) :=
  match Setup.midi_channels d with
  | .ok mc => setupChanLoop d mc 3
  | .error e => .error e

/-- record.Setup._scene_offset: 3 + 3 bytes per selected channel. -/
def Setup.scene_offset (d : Data) : Except PyErr Nat :=
  match Setup.midi_channels d with
  | .ok mc => .ok (3 + mc.length * 3)
  | .error e => .error e

/-- record.Setup._has_scene: the byte at the scene offset equals the
0xFE sentinel. -/
def Setup.has_scene (d : Data) : Except PyErr Bool :=
  match Setup.scene_offset d with
  | .ok so =>
    match Data.byte d so with
    | .ok b => .ok (b == 0xFE)
    | .error e => .error e
  | .error e => .error e

/-- record.Setup.scene: None without the sentinel, else the following
byte. -/
def Setup.scene (d : Data) : Except PyErr (Option Nat) :=
  match Setup.has_scene d, Setup.scene_offset d with
  | .ok true, .ok so =>
    match Data.byte d (so + 1) with
    | .ok b => .ok (some b)
    | .error e => .error e
  | .ok false, _ => .ok none
  | .error e, _ => .error e
  | _, .error e => .error e

/-- record.Setup._sysex_offset: the scene offset plus 2 when the scene
marker is present. -/
def Setup.sysex_offset (d : Data) : Except PyErr Nat :=
  match Setup.scene_offset d, Setup.has_scene d with
  | .ok so, .ok hs => .ok (so + if hs then 2 else 0)
  | .error e, _ => .error e
  | _, .error e => .error e

/-- record.Setup._sysex_length: the byte at the sysex offset. -/
def Setup.sysex_length (d : Data) : Except PyErr Nat :=
  match Setup.sysex_offset d with
  | .ok so => Data.byte d so
  | .error e => .error e

/-- record.Setup.sysex: the blob after the length byte (clamping
slice). -/
def Setup.sysex (d : Data) : Except PyErr Data :=
  match Setup.sysex_offset d, Setup.sysex_length d with
  | .ok so, .ok sl => .ok (Data.bytearray d (so + 1) sl)
  | .error e, _ => .error e
  | _, .error e => .error e

/-- The CC record body of scenario 2: tag/name byte 0x41, min 0, max
127, channel 1, cc 7, mode 0, then the three bytes of the name Vol. -/
def ccBytes : Data := [0x41, 0x00, 0x7F, 0x01, 0x07, 0x00, 0x56, 0x6F, 0x6C]

/-- The Setup record body of scenario 5. -/
def setupBody : Data := [0x01, 0x01, 0x00, 0x01, 0x7F, 0xC0, 0x00]

/-- A framed dump whose single nibble pair (0x10, 0x00) combines to 256:
every header/footer condition of unpack holds, yet the value cannot go
into a bytearray. -/
def overflowDump : List Nat :=
  [0xF0, 0x00, 0x00, 0x1B, 0x0B, 0x00, 0x04, 0x10, 0x00, 0xF7]

/-- A 20-byte payload: 16-byte blank name, size field 2, then a single
2-byte record area holding one length-1 Disabled record. -/
def shortPayload : Data :=
  [0x20, 0x20, 0x20, 0x20, 0x20, 0x20, 0x20, 0x20, 0x20, 0x20, 0x20, 0x20,
    0x20, 0x20, 0x20, 0x20, 0x00, 0x02, 0x01, 0x00]

/-- The single record parse_records extracts from shortPayload. -/
def shortPayloadRecords : List Record := [⟨Section.faders, [0x00]⟩]

/-- The canonical framing of shortPayload on global channel 0: every
payload byte expanded into its two nibbles. -/
def canonicalDump : List Nat :=
  [0xF0, 0x00, 0x00, 0x1B, 0x0B, 0x00, 0x04,
    0x02, 0x00, 0x02, 0x00, 0x02, 0x00, 0x02, 0x00, 0x02, 0x00, 0x02, 0x00,
    0x02, 0x00, 0x02, 0x00, 0x02, 0x00, 0x02, 0x00, 0x02, 0x00, 0x02, 0x00,
    0x02, 0x00, 0x02, 0x00, 0x02, 0x00, 0x02, 0x00,
    0x00, 0x00, 0x00, 0x02, 0x00, 0x01, 0x00, 0x00, 0xF7]

/-- canonicalDump with its first nibble pair (0x02, 0x00) rewritten to
the non-canonical pair (0x01, 0x10): both combine to the byte 0x20, so
the constructor decodes the same patch, but re-encoding emits the
canonical pair. -/
def noncanonicalDump : List Nat :=
  [0xF0, 0x00, 0x00, 0x1B, 0x0B, 0x00, 0x04,
    0x01, 0x10, 0x02, 0x00, 0x02, 0x00, 0x02, 0x00, 0x02, 0x00, 0x02, 0x00,
    0x02, 0x00, 0x02, 0x00, 0x02, 0x00, 0x02, 0x00, 0x02, 0x00, 0x02, 0x00,
    0x02, 0x00, 0x02, 0x00, 0x02, 0x00, 0x02, 0x00,
    0x00, 0x00, 0x00, 0x02, 0x00, 0x01, 0x00, 0x00, 0xF7]

/-- The patch decoded from canonicalDump (and, up to raw_data, from
noncanonicalDump). -/
def canonicalPatch : SysexPatch := ⟨canonicalDump, shortPayload, shortPayloadRecords⟩

end PC1600

namespace PC1600

/-- On an all-printable byte list the character loop succeeds and
returns chr of every byte. -/
theorem strDecode_ok_of_printable :
    ∀ l : List Nat, (∀ c ∈ l, 32 ≤ c ∧ c ≤ 126) →
      strDecode l = .ok ⟨l.map Char.ofNat⟩ := by
  intro l
  induction l with
  | nil => intro _; rfl
  | cons c rest ih =>
    intro h
    have hc := h c (List.mem_cons_self c rest)
    have hrest : ∀ x ∈ rest, 32 ≤ x ∧ x ≤ 126 :=
      fun x hx => h x (List.mem_cons_of_mem c hx)
    have hcond : ¬(c < 32 ∨ 126 < c) := by omega
    simp only [strDecode, if_neg hcond, ih hrest, List.map_cons]

/-- A byte outside 32..126 anywhere in the list makes the character
loop raise. -/
theorem strDecode_err_of_bad :
    ∀ l : List Nat, (∃ c ∈ l, c < 32 ∨ 126 < c) →
      strDecode l = .error .unsupportedFormat := by
  intro l
  induction l with
  | nil => rintro ⟨c, hc, _⟩; cases hc
  | cons c rest ih =>
    rintro ⟨x, hx, hbad⟩
    by_cases hcond : c < 32 ∨ 126 < c
    · simp only [strDecode, if_pos hcond]
    · rcases List.mem_cons.mp hx with rfl | hx'
      · exact absurd hbad hcond
      · simp only [strDecode, if_neg hcond, ih ⟨x, hx', hbad⟩]

/-- A successful character-loop result has one character per input
byte. -/
theorem strDecode_ok_length :
    ∀ (l : List Nat) (s : String), strDecode l = .ok s → s.length = l.length := by
  intro l
  induction l with
  | nil =>
    intro s hs
    simp only [strDecode, Except.ok.injEq] at hs
    simp [← hs, String.length]
  | cons c rest ih =>
    intro s hs
    simp only [strDecode] at hs
    split at hs
    · cases hs
    · split at hs
      · rename_i s' hs'
        simp only [Except.ok.injEq] at hs
        subst hs
        have h2 := ih s' hs'
        simp only [String.length, List.length_cons] at *
        omega
      · cases hs

/-- C6: Data.string returns the empty string for length 0 without
reading; for the addressed (clamping) byte range it succeeds with chr of
every byte exactly when all bytes lie in 32..126, and raises the
malformed-string error exactly when some byte falls outside 32..126. -/
theorem string_decode_characterization :
    ∀ (b : Data) (o l : Nat),
      (l = 0 → Data.string b o l = .ok ("")) ∧
      ((∀ c ∈ Data.bytearray b o l, 32 ≤ c ∧ c ≤ 126) →
        Data.string b o l = .ok ⟨(Data.bytearray b o l).map Char.ofNat⟩) ∧
      ((∃ c ∈ Data.bytearray b o l, c < 32 ∨ 126 < c) →
        Data.string b o l = .error .unsupportedFormat) := by
  intro b o l
  refine ⟨fun h => by simp [Data.string, h], ?_, ?_⟩
  · intro h
    by_cases hl : l = 0
    · subst hl
      simp [Data.string, Data.bytearray]
    · simp only [Data.string, if_neg hl]
      exact strDecode_ok_of_printable _ h
  · rintro ⟨c, hc, hbad⟩
    by_cases hl : l = 0
    · subst hl
      simp [Data.bytearray] at hc
    · simp only [Data.string, if_neg hl]
      exact strDecode_err_of_bad _ ⟨c, hc, hbad⟩

/-- C6 witness: decoding the two printable bytes 0x48 0x69 yields the
string Hi. -/
theorem string_decode_characterization_witness :
    Data.string [0x48, 0x69] 0 2 = .ok ("Hi") := by
  have h := (string_decode_characterization [0x48, 0x69] 0 2).2.1 (by decide)
  exact h

/-- C10: when the addressed range extends past the end of the buffer,
Data.string behaves exactly as if called with the clamped length: it
decodes only the bytes actually present (no out-of-bounds error), and a
successful result has one character per present byte, hence may be
shorter than the requested length. -/
theorem string_clamps_out_of_range :
    ∀ (b : Data) (o l : Nat), b.length < o + l →
      Data.string b o l = Data.string b o (b.length - o) ∧
      (∀ s, Data.string b o l = .ok s → s.length = b.length - o) := by
  intro b o l h
  have hslice : Data.bytearray b o l = b.drop o := by
    unfold Data.bytearray
    apply List.take_of_length_le
    simp only [List.length_drop]
    omega
  have hmain : Data.string b o l = Data.string b o (b.length - o) := by
    by_cases hl : l = 0
    · subst hl
      have ho : b.length - o = 0 := by omega
      simp [Data.string, ho]
    · by_cases hbo : b.length - o = 0
      · have hdrop : b.drop o = [] := List.drop_eq_nil_of_le (by omega)
        simp [Data.string, if_neg hl, hbo, hslice, hdrop, strDecode]
      · have hslice2 : Data.bytearray b o (b.length - o) = b.drop o := by
          unfold Data.bytearray
          apply List.take_of_length_le
          simp only [List.length_drop]
          omega
        simp only [Data.string, if_neg hl, if_neg hbo, hslice, hslice2]
  refine ⟨hmain, fun s hs => ?_⟩
  by_cases hl : l = 0
  · have ho : b.length - o = 0 := by omega
    simp only [Data.string, if_pos hl, Except.ok.injEq] at hs
    simp [← hs, String.length, ho]
  · simp only [Data.string, if_neg hl, hslice] at hs
    have := strDecode_ok_length _ _ hs
    simp only [List.length_drop] at this
    exact this

/-- C10 witness: reading 5 bytes from a 1-byte buffer behaves as reading
the single present byte and yields a 1-character string. -/
theorem string_clamps_out_of_range_witness :
    Data.string [0x41] 0 5 = Data.string [0x41] 0 1 ∧
      ("A" : String).length = 1 := by
  have h := string_clamps_out_of_range [0x41] 0 5 (by decide)
  exact ⟨h.1, h.2 ("A") (by rfl)⟩

/-- C5: for every payload long enough to hold the name and size fields,
SysexPatch construction after unpacking fails with the size-mismatch
ValueError whenever the declared short at offset 16 differs from the
payload length minus 18, without reaching parse_records; when they
agree, construction proceeds directly to parse_records. -/
theorem checkSize_gate :
    ∀ p : Data, 18 ≤ p.length →
      (∀ z : Int, Data.short p 16 = .ok z → z ≠ (p.length : Int) - 18 →
        initFromPayload p = .error .sizeMismatch) ∧
      (Data.short p 16 = .ok ((p.length : Int) - 18) →
        initFromPayload p = parse_records p) := by
  intro p hp
  constructor
  · intro z hz hne
    have hc : checkSize p = .error .sizeMismatch := by
      unfold checkSize
      rw [hz]
      exact if_pos (show (p.length : Int) - (16 + 2) ≠ z by omega)
    unfold initFromPayload
    rw [hc]
  · intro hz
    have hc : checkSize p = .ok () := by
      unfold checkSize
      rw [hz]
      exact if_neg
        (show ¬((p.length : Int) - (16 + 2) ≠ (p.length : Int) - 18) by omega)
    unfold initFromPayload
    rw [hc]

/-- C5 witness: shortPayload declares size 2 for its 20 bytes, so
construction proceeds to parse_records. -/
theorem checkSize_gate_witness :
    initFromPayload shortPayload = parse_records shortPayload :=
  (checkSize_gate shortPayload (by decide)).2 (by rfl)

/-- unpack_sysex succeeds exactly when the fingerprint, command byte and
footer checks pass and every recombined nibble pair fits in a byte, in
which case the result is the recombined pair list. -/
theorem unpack_ok_iff (d : List Nat) (p : Data) :
    unpack_sysex d = .ok p ↔
      (d.take 5 = fingerprint ∧ d[6]? = some 0x04 ∧ d.getLast? = some 0xF7 ∧
        (nibblePairs (d.drop 7)).all (· < 256) = true ∧
        p = nibblePairs (d.drop 7)) := by
  unfold unpack_sysex
  by_cases h1 : d.take 5 = fingerprint
  · rw [if_neg (by simp [h1])]
    cases h6 : d[6]? with
    | none => simp [h1, h6]
    | some c =>
      dsimp only
      by_cases hc1 : c = 0x01
      · subst hc1
        simp [h1, h6]
      · rw [if_neg hc1]
        by_cases hc4 : c = 0x04
        · subst hc4
          rw [if_neg (by simp)]
          by_cases hl : d.getLast? = some 0xF7
          · rw [if_neg (by simp [hl])]
            by_cases ha : (nibblePairs (d.drop 7)).all (· < 256) = true
            · rw [if_pos ha]
              simp [h1, h6, hl, ha, eq_comm]
            · rw [if_neg ha]
              simp [h1, h6, hl, ha]
          · rw [if_pos (by simp [hl])]
            simp [h1, h6, hl]
        · rw [if_pos hc4]
          simp [h1, h6, hc4]
  · rw [if_pos h1]
    simp [h1]

/-- C2 (amended): unpack_sysex fails when the first 5 bytes differ from
F0 00 00 1B 0B, or byte 6 is absent, equals 0x01 or differs from 0x04,
or the final byte is not 0xF7, or some combined nibble-pair value
exceeds 255 (bytearray ValueError); otherwise it succeeds and returns
the values (hi<<4)+lo of the pairs (d[i], d[i+1]) for i = 7, 9, ...
while i < len-1 (so an odd nibble region pairs its last byte with the
footer), in original order. -/
theorem unpack_sysex_characterization :
    ∀ (d : List Nat) (p : Data),
      unpack_sysex d = .ok p ↔
        (d.take 5 = fingerprint ∧ d[6]? = some 0x04 ∧ d.getLast? = some 0xF7 ∧
          (nibblePairs (d.drop 7)).all (· < 256) = true ∧
          p = nibblePairs (d.drop 7)) :=
  fun d p => unpack_ok_iff d p

/-- C2 witness: a well-formed two-nibble frame unpacks to its combined
byte. -/
theorem unpack_sysex_characterization_witness :
    unpack_sysex [0xF0, 0x00, 0x00, 0x1B, 0x0B, 0x07, 0x04, 0x01, 0x02, 0xF7] =
      .ok [0x12] :=
  (unpack_sysex_characterization
    [0xF0, 0x00, 0x00, 0x1B, 0x0B, 0x07, 0x04, 0x01, 0x02, 0xF7] [0x12]).mpr
    ⟨rfl, rfl, rfl, rfl, rfl⟩

/-- Whenever the parse loop returns a record list, the cursor has landed
exactly on the end of the buffer: the start offset plus the total of the
records' prefixed sizes equals the buffer length. -/
theorem parseLoop_landing (d : Data) :
    ∀ (fuel off rid : Nat) (sec : Section) (rs : List Record),
      parseLoop d fuel off rid sec = .ok rs →
      off + ((rs.map fun r => 1 + r.data.length).sum) = d.length := by
  intro fuel
  induction fuel with
  | zero =>
    intro off rid sec rs h
    simp [parseLoop] at h
  | succ n ih =>
    intro off rid sec rs h
    simp only [parseLoop] at h
    split at h
    · cases h
    · split at h
      · rename_i r hend
        simp only [Except.ok.injEq] at h
        subst h
        simp only [List.map_cons, List.map_nil, List.sum_cons, List.sum_nil]
        omega
      · split at h
        · rename_i r hend rs' hrec
          simp only [Except.ok.injEq] at h
          subst h
          have h2 := ih _ _ _ _ hrec
          simp only [List.map_cons, List.sum_cons]
          omega
        · cases h

/-- C4 (amended): parse_records succeeds only when the cursor reaches
the end of the declared payload exactly — 18 plus the total size of the
parsed length-prefixed records equals the payload length — at whatever
record index that happens; the count of 36 records is not enforced (the
record index only selects the section thresholds). -/
theorem parse_records_exact_landing :
    ∀ (d : Data) (rs : List Record), parse_records d = .ok rs →
      18 + ((rs.map fun r => 1 + r.data.length).sum) = d.length :=
  fun d rs h => parseLoop_landing d _ _ _ _ rs h

/-- C4 witness: the single record parsed from shortPayload accounts for
bytes 18..19 exactly. -/
theorem parse_records_exact_landing_witness :
    18 + ((shortPayloadRecords.map fun r => 1 + r.data.length).sum) =
      shortPayload.length :=
  parse_records_exact_landing shortPayload shortPayloadRecords (by rfl)

/-- data_factory rejects an argument list whose leading one-byte item is
out of byte range. -/
theorem data_factory_hd_oob (x : Nat) (rest : List (List Nat)) (hx : 256 ≤ x) :
    data_factory ([x] :: rest) = .error .valueRange := by
  unfold data_factory
  rw [if_neg]
  simp only [List.all_eq_true, decide_eq_true_eq]
  intro hall
  have hmem : x ∈ ([x] :: rest).flatten :=
    List.mem_flatten.mpr ⟨[x], List.mem_cons_self _ _, List.mem_singleton_self x⟩
  have := hall x hmem
  omega

/-- isOk form of data_factory_hd_oob. -/
theorem pack_head_oob (x : Nat) (rest : List (List Nat)) (hx : 256 ≤ x) :
    (data_factory ([x] :: rest)).isOk = false := by
  rw [data_factory_hd_oob x rest hx]
  rfl

/-- A name longer than 15 characters makes the leading
name-length/type-tag byte at least 256. -/
theorem nib_byte_oob {n : Nat} (t : Nat) (h : 15 < n) : 256 ≤ nibbles_to_int n t := by
  have he : nibbles_to_int n t = n * 16 + t := by
    rw [nibbles_to_int, Nat.shiftLeft_eq]
  omega

/-- C9 (amended): for every record variant whose pack encodes a name —
all of them except Disabled, whose pack ignores its keyword arguments
and always succeeds, and DataWheel, whose field set has no name — pack
fails for every field set whose name has more than 15 characters,
because the name-length/type byte (16*len + tag) cannot go into a
bytearray. -/
theorem pack_name_length_bound :
    ∀ name : String, 15 < name.length →
      ((∀ mn mx ch ccv md, (CC.pack name mn mx ch ccv md).isOk = false) ∧
        (∀ fs w, (Master.pack name fs w).isOk = false) ∧
        (∀ pf mn mx sx, (StringRecord.pack name pf mn mx sx).isOk = false) ∧
        (Mute.pack name).isOk = false ∧
        (Solo.pack name).isOk = false ∧
        (∀ ch pg, (ProgramChange.pack name ch pg).isOk = false) ∧
        (∀ ch nt vl, (NoteOnOff.pack name ch nt vl).isOk = false) ∧
        (∀ sx, (ButtonString.pack name sx).isOk = false) ∧
        (∀ pr rl, (StringPressRelease.pack name pr rl).isOk = false) ∧
        (∀ s1 s2, (StringToggle.pack name s1 s2).isOk = false) ∧
        (SendFader.pack name).isOk = false ∧
        (∀ v, (SendScene.pack name v).isOk = false) ∧
        (∀ chs sc sx, (Setup.pack name chs sc sx).isOk = false)) ∧
      (Disabled.pack name).isOk = true := by
  intro name h
  refine ⟨⟨?_, ?_, ?_, ?_, ?_, ?_, ?_, ?_, ?_, ?_, ?_, ?_, ?_⟩, rfl⟩
  · intro mn mx ch ccv md
    unfold CC.pack
    exact pack_head_oob _ _ (nib_byte_oob 1 h)
  · intro fs w
    unfold Master.pack
    exact pack_head_oob _ _ (nib_byte_oob 2 h)
  · intro pf mn mx sx
    unfold StringRecord.pack
    split
    · exact pack_head_oob _ _ (nib_byte_oob 3 h)
    · rfl
    · rfl
  · unfold Mute.pack
    exact pack_head_oob _ _ (nib_byte_oob 1 h)
  · unfold Solo.pack
    exact pack_head_oob _ _ (nib_byte_oob 2 h)
  · intro ch pg
    unfold ProgramChange.pack
    exact pack_head_oob _ _ (nib_byte_oob 3 h)
  · intro ch nt vl
    unfold NoteOnOff.pack
    exact pack_head_oob _ _ (nib_byte_oob 4 h)
  · intro sx
    unfold ButtonString.pack
    exact pack_head_oob _ _ (nib_byte_oob 5 h)
  · intro pr rl
    unfold StringPressRelease.pack
    exact pack_head_oob _ _ (nib_byte_oob 6 h)
  · intro s1 s2
    unfold StringToggle.pack
    exact pack_head_oob _ _ (nib_byte_oob 7 h)
  · unfold SendFader.pack
    exact pack_head_oob _ _ (nib_byte_oob 8 h)
  · intro v
    unfold SendScene.pack
    exact pack_head_oob _ _ (nib_byte_oob 9 h)
  · intro chs sc sx
    unfold Setup.pack
    exact pack_head_oob _ _ (nib_byte_oob 1 h)

/-- C9 witness: packing a CC record with a 16-character name fails. -/
theorem pack_name_length_bound_witness :
    (CC.pack ("0123456789ABCDEF") 0 0 0 0 0).isOk = false :=
  (pack_name_length_bound ("0123456789ABCDEF") (by decide)).1.1 0 0 0 0 0

/-- The bitmap sum over ids all above v is divisible by 2^v. -/
theorem msum_dvd (v : Nat) (rest : List Nat) (hlt : ∀ w ∈ rest, v < w) :
    2 ^ v ∣ ((rest.map fun w => 2 ^ (w - 1)).sum) := by
  apply List.dvd_sum
  intro x hx
  rcases List.mem_map.mp hx with ⟨w, hw, rfl⟩
  exact pow_dvd_pow 2 (by have := hlt w hw; omega)

/-- Bit j of the bitmap value of a strictly sorted id list with ids at
least 1 is set exactly when id j+1 belongs to the list. -/
theorem msum_testBit :
    ∀ S : List Nat, S.Sorted (· < ·) → (∀ v ∈ S, 1 ≤ v) →
      ∀ j, Nat.testBit ((S.map fun v => 2 ^ (v - 1)).sum) j = decide (j + 1 ∈ S) := by
  intro S
  induction S with
  | nil => intro _ _ j; simp
  | cons v rest ih =>
    intro hsort hbnd j
    have hlt : ∀ w ∈ rest, v < w := (List.pairwise_cons.mp hsort).1
    have hrest : rest.Sorted (· < ·) := (List.pairwise_cons.mp hsort).2
    have hv : 1 ≤ v := hbnd v (List.mem_cons_self v rest)
    have hbrest : ∀ w ∈ rest, 1 ≤ w := fun w hw => hbnd w (List.mem_cons_of_mem v hw)
    obtain ⟨k, hk⟩ := msum_dvd v rest hlt
    have hblt : 2 ^ (v - 1) < 2 ^ v := Nat.pow_lt_pow_of_lt (by omega) (by omega)
    have hsum : ((v :: rest).map fun w => 2 ^ (w - 1)).sum =
        2 ^ v * k + 2 ^ (v - 1) := by
      simp only [List.map_cons, List.sum_cons, hk]
      omega
    rw [hsum, Nat.testBit_mul_pow_two_add k hblt j]
    by_cases hj : j < v
    · rw [if_pos hj, Nat.testBit_two_pow, decide_eq_decide]
      simp only [List.mem_cons]
      constructor
      · intro h; left; omega
      · rintro (h | h)
        · omega
        · have := hlt _ h; omega
    · rw [if_neg hj]
      have h0 : Nat.testBit (2 ^ v * k) j = Nat.testBit k (j - v) := by
        have h1 := Nat.testBit_mul_pow_two_add k
          (show (0 : Nat) < 2 ^ v from Nat.pos_pow_of_pos v (by omega)) j
        simpa [if_neg hj] using h1
      have h2 : Nat.testBit ((rest.map fun w => 2 ^ (w - 1)).sum) j =
          Nat.testBit k (j - v) := by
        rw [hk]
        exact h0
      rw [← h2, ih hrest hbrest j, decide_eq_decide]
      simp only [List.mem_cons]
      constructor
      · intro h; right; exact h
      · rintro (h | h)
        · omega
        · exact h

/-- Membership in a decoded bitmap list, phrased through testBit (whose
definition is literally the source's truthiness test of 0x1 & (x >> i)). -/
theorem bitmap_ids_mem (a b x : Nat) :
    x ∈ bitmap_ids a b ↔
      ((1 ≤ x ∧ x ≤ 8 ∧ a.testBit (x - 1) = true) ∨
        (9 ≤ x ∧ x ≤ 16 ∧ b.testBit (x - 9) = true)) := by
  have hpred : ∀ y i : Nat, (1 &&& y >>> i != 0) = y.testBit i := fun y i => rfl
  simp only [bitmap_ids, List.mem_append, List.mem_map, List.mem_filter,
    List.mem_range, hpred]
  constructor
  · rintro (⟨i, ⟨hi, hb⟩, rfl⟩ | ⟨i, ⟨hi, hb⟩, rfl⟩)
    · exact Or.inl ⟨by omega, by omega, by simpa using hb⟩
    · exact Or.inr ⟨by omega, by omega, by simpa using hb⟩
  · rintro (⟨h1, h2, hb⟩ | ⟨h1, h2, hb⟩)
    · exact Or.inl ⟨x - 1, ⟨by omega, by simpa using hb⟩, by omega⟩
    · exact Or.inr ⟨x - 9, ⟨by omega, by simpa using hb⟩, by omega⟩

/-- A decoded bitmap list is strictly sorted. -/
theorem bitmap_ids_sorted (a b : Nat) : (bitmap_ids a b).Pairwise (· < ·) := by
  unfold bitmap_ids
  rw [List.pairwise_append]
  refine ⟨?_, ?_, ?_⟩
  · rw [List.pairwise_map]
    exact ((List.pairwise_lt_range 8).filter _).imp (by omega)
  · rw [List.pairwise_map]
    exact ((List.pairwise_lt_range 8).filter _).imp (by omega)
  · intro x hx y hy
    rcases List.mem_map.mp hx with ⟨i, hi, rfl⟩
    rcases List.mem_map.mp hy with ⟨j, hj, rfl⟩
    have := List.mem_range.mp (List.mem_filter.mp hi).1
    omega

/-- Two strictly sorted lists with the same members are equal. -/
theorem sorted_mem_ext :
    ∀ l₁ l₂ : List Nat, l₁.Pairwise (· < ·) → l₂.Pairwise (· < ·) →
      (∀ x, x ∈ l₁ ↔ x ∈ l₂) → l₁ = l₂ := by
  intro l₁
  induction l₁ with
  | nil =>
    intro l₂ _ _ hmem
    cases l₂ with
    | nil => rfl
    | cons b t₂ => exact absurd ((hmem b).mpr (List.mem_cons_self b t₂)) (by simp)
  | cons a t ih =>
    intro l₂ h₁ h₂ hmem
    cases l₂ with
    | nil => exact absurd ((hmem a).mp (List.mem_cons_self a t)) (by simp)
    | cons b t₂ =>
      have ha := (hmem a).mp (List.mem_cons_self a t)
      have hb := (hmem b).mpr (List.mem_cons_self b t₂)
      have hab : a = b := by
        rcases List.mem_cons.mp ha with h | ha'
        · exact h
        · rcases List.mem_cons.mp hb with h | hb'
          · omega
          · have hba := (List.pairwise_cons.mp h₂).1 a ha'
            have := (List.pairwise_cons.mp h₁).1 b hb'
            omega
      subst hab
      have ht : t = t₂ := by
        apply ih t₂ (List.pairwise_cons.mp h₁).2 (List.pairwise_cons.mp h₂).2
        intro x
        constructor
        · intro hx
          have hax := (List.pairwise_cons.mp h₁).1 x hx
          rcases List.mem_cons.mp ((hmem x).mp (List.mem_cons_of_mem a hx)) with h | h
          · omega
          · exact h
        · intro hx
          have hax := (List.pairwise_cons.mp h₂).1 x hx
          rcases List.mem_cons.mp ((hmem x).mpr (List.mem_cons_of_mem a hx)) with h | h
          · omega
          · exact h
      rw [ht]

/-- The low byte of a 16-bit value keeps bits 0..7. -/
theorem low_byte_testBit (val i : Nat) :
    (val &&& 0xff).testBit i = (decide (i < 8) && val.testBit i) := by
  rw [show (0xff : Nat) = 2 ^ 8 - 1 by norm_num,
    Nat.and_pow_two_sub_one_eq_mod, Nat.testBit_mod_two_pow]

/-- C3: for every subset of {1..16}, represented as its strictly sorted
id list, encoding as Master.pack does (the value sum of 2^(id-1), split
by short_to_bytes with the low byte val_data[1] stored first and high
byte val_data[0] second) and decoding with bitmap_ids yields exactly the
subset; in particular the fader set {1,2,9} gives low byte 0b00000011
and high byte 0b00000001. -/
theorem bitmap_roundtrip :
    (∀ S : List Nat, S.Sorted (· < ·) → (∀ v ∈ S, 1 ≤ v ∧ v ≤ 16) →
      bitmap_ids ((short_to_bytes ((S.map fun v => 2 ^ (v - 1)).sum)).getD 1 0)
        ((short_to_bytes ((S.map fun v => 2 ^ (v - 1)).sum)).getD 0 0) = S) ∧
      (short_to_bytes ((([1, 2, 9] : List Nat).map fun v => 2 ^ (v - 1)).sum)).getD 1 0 =
        0b00000011 ∧
      (short_to_bytes ((([1, 2, 9] : List Nat).map fun v => 2 ^ (v - 1)).sum)).getD 0 0 =
        0b00000001 := by
  refine ⟨?_, by decide, by decide⟩
  intro S hsort hbnd
  set val := (S.map fun v => 2 ^ (v - 1)).sum with hval
  have hgetlow : (short_to_bytes val).getD 1 0 = val &&& 0xff := rfl
  have hgethigh : (short_to_bytes val).getD 0 0 = val >>> 8 := rfl
  rw [hgetlow, hgethigh]
  apply sorted_mem_ext _ _ (bitmap_ids_sorted _ _) hsort
  intro x
  rw [bitmap_ids_mem]
  have hbit := msum_testBit S hsort (fun v hv => (hbnd v hv).1)
  constructor
  · rintro (⟨h1, h2, hb⟩ | ⟨h1, h2, hb⟩)
    · rw [low_byte_testBit, Bool.and_eq_true, decide_eq_true_eq] at hb
      have := hb.2
      rw [hbit (x - 1)] at this
      have hx : x - 1 + 1 = x := by omega
      rw [hx] at this
      exact of_decide_eq_true this
    · rw [Nat.testBit_shiftRight, hbit (8 + (x - 9))] at hb
      have hx : 8 + (x - 9) + 1 = x := by omega
      rw [hx] at hb
      exact of_decide_eq_true hb
  · intro hx
    have hxb := hbnd x hx
    have hbx : val.testBit (x - 1) = true := by
      rw [hbit (x - 1)]
      have h1 : x - 1 + 1 = x := by omega
      rw [h1]
      exact decide_eq_true hx
    by_cases h8 : x ≤ 8
    · refine Or.inl ⟨by omega, h8, ?_⟩
      rw [low_byte_testBit, Bool.and_eq_true, decide_eq_true_eq]
      exact ⟨by omega, hbx⟩
    · refine Or.inr ⟨by omega, by omega, ?_⟩
      rw [Nat.testBit_shiftRight]
      have h9 : 8 + (x - 9) = x - 1 := by omega
      rw [h9]
      exact hbx

/-- C3 witness: the fader set {1,2,9} round-trips through the bitmap
encoding. -/
theorem bitmap_roundtrip_witness :
    bitmap_ids
        ((short_to_bytes ((([1, 2, 9] : List Nat).map fun v => 2 ^ (v - 1)).sum)).getD 1 0)
        ((short_to_bytes ((([1, 2, 9] : List Nat).map fun v => 2 ^ (v - 1)).sum)).getD 0 0) =
      [1, 2, 9] :=
  bitmap_roundtrip.1 [1, 2, 9] (by decide) (by decide)

/-- What a successful record_factory call reveals: the length prefix was
readable and the record holds exactly the (possibly clamped, nonempty)
slice after it. -/
theorem record_factory_ok_inv {d : Data} {off : Nat} {sec : Section} {r : Record}
    (h : record_factory d off sec = .ok r) :
    ∃ pfx, d[off - 1]? = some pfx ∧ r.data = Data.bytearray d off pfx ∧
      r.«section» = sec ∧ r.data.length ≠ 0 := by
  unfold record_factory at h
  split at h
  · cases h
  · split at h
    · cases h
    · split at h
      · simp only [Except.ok.injEq] at h
        subst h
        refine ⟨_, by assumption, rfl, rfl, fun h0 => ?_⟩
        simp only [List.length_eq_zero] at h0
        simp_all
      · cases h

/-- What a successful size check reveals: the two size-field bytes exist
and their signed big-endian value is the payload length minus 18. -/
theorem checkSize_ok_inv {p : Data} (h : checkSize p = .ok ()) :
    ∃ hi lo, Data.bytearray p 16 2 = [hi, lo] ∧
      toSigned16 (hi * 256 + lo) = (p.length : Int) - 18 := by
  unfold checkSize at h
  split at h
  · cases h
  · rename_i sz hsz
    unfold Data.short at hsz
    split at hsz
    · rename_i hi lo hba
      simp only [Except.ok.injEq] at hsz
      refine ⟨hi, lo, hba, ?_⟩
      rw [hsz]
      by_contra hne
      rw [if_pos (by omega)] at h
      cases h
    · cases hsz

/-- nibblePairs produces one byte per full pair. -/
theorem nibblePairs_length : ∀ l : List Nat, (nibblePairs l).length = l.length / 2 := by
  have key : ∀ (n : Nat) (l : List Nat), l.length ≤ n →
      (nibblePairs l).length = l.length / 2 := by
    intro n
    induction n with
    | zero =>
      intro l hl
      have : l = [] := by
        cases l with
        | nil => rfl
        | cons a t => simp at hl
      subst this
      rfl
    | succ m ihm =>
      intro l hl
      match l with
      | [] => simp [nibblePairs]
      | [x] => simp [nibblePairs]
      | a :: b :: rest =>
        have h1 : (nibblePairs (a :: b :: rest)).length =
            (nibblePairs rest).length + 1 := by
          simp [nibblePairs]
        rw [h1, ihm rest (by simp at hl; omega)]
        simp only [List.length_cons]
        omega
  exact fun l => key l.length l (Nat.le_refl _)

/-- Recombining distributes over an append at an even boundary (the
Python range pairs strictly inside the left part first). -/
theorem nibblePairs_append_even :
    ∀ N t : List Nat, N.length % 2 = 0 →
      nibblePairs (N ++ t) = nibblePairs N ++ nibblePairs t := by
  have key : ∀ (n : Nat) (N t : List Nat), N.length ≤ n → N.length % 2 = 0 →
      nibblePairs (N ++ t) = nibblePairs N ++ nibblePairs t := by
    intro n
    induction n with
    | zero =>
      intro N t hl _
      have : N = [] := by
        cases N with
        | nil => rfl
        | cons a r => simp at hl
      subst this
      simp [nibblePairs]
    | succ m ihm =>
      intro N t hl he
      match N with
      | [] => simp [nibblePairs]
      | [x] => simp at he
      | a :: b :: rest =>
        have h1 : (a :: b :: rest) ++ t = a :: b :: (rest ++ t) := rfl
        rw [h1]
        show nibbles_to_int a b :: nibblePairs (rest ++ t) =
          (nibbles_to_int a b :: nibblePairs rest) ++ nibblePairs t
        rw [ihm rest t (by simp at hl; omega) (by simp at he; omega)]
        rfl
  exact fun N t he => key N.length N t (Nat.le_refl _) he

/-- Splitting a combined byte back into nibbles recovers a canonical
(below-16) nibble pair. -/
theorem int_to_nibbles_combine (a b : Nat) (_ha : a < 16) (hb : b < 16) :
    int_to_nibbles (nibbles_to_int a b) = [a, b] := by
  unfold int_to_nibbles nibbles_to_int
  rw [Nat.shiftLeft_eq, Nat.shiftRight_eq_div_pow,
    show (0xf : Nat) = 2 ^ 4 - 1 by norm_num, Nat.and_pow_two_sub_one_eq_mod]
  have h1 : (a * 2 ^ 4 + b) / 2 ^ 4 = a := by
    rw [Nat.mul_comm, Nat.mul_add_div (by norm_num), Nat.div_eq_of_lt (by omega)]
    omega
  have h2 : (a * 2 ^ 4 + b) % 2 ^ 4 = b := by
    rw [Nat.mul_comm, Nat.mul_add_mod, Nat.mod_eq_of_lt (by omega)]
  rw [h1, h2]


/-- Nibble-expanding the recombination of an even-length list of
canonical nibbles is the identity. -/
theorem expand_nibblePairs :
    ∀ N : List Nat, N.length % 2 = 0 → (∀ x ∈ N, x < 16) →
      ((nibblePairs N).map int_to_nibbles).flatten = N := by
  have key : ∀ (n : Nat) (N : List Nat), N.length ≤ n → N.length % 2 = 0 →
      (∀ x ∈ N, x < 16) → ((nibblePairs N).map int_to_nibbles).flatten = N := by
    intro n
    induction n with
    | zero =>
      intro N hl _ _
      have : N = [] := by
        cases N with
        | nil => rfl
        | cons a r => simp at hl
      subst this
      rfl
    | succ m ihm =>
      intro N hl he hbnd
      match N with
      | [] => rfl
      | [x] => simp at he
      | a :: b :: rest =>
        have hrec := ihm rest (by simp at hl; omega) (by simp at he; omega)
          (fun x hx => hbnd x (by simp [hx]))
        show (int_to_nibbles (nibbles_to_int a b) ::
          (nibblePairs rest).map int_to_nibbles).flatten = a :: b :: rest
        rw [List.flatten_cons, hrec,
          int_to_nibbles_combine a b (hbnd a (by simp)) (hbnd b (by simp))]
        rfl
  exact fun N he hbnd => key N.length N (Nat.le_refl _) he hbnd

/-- Under a canonical scan (every declared record length fits, and the
prefix walk lands exactly on the end), a successful parse flattens back
to exactly the bytes it consumed. -/
theorem parse_flatten_inv (d : Data) :
    ∀ (f2 f1 off rid : Nat) (sec : Section) (rs : List Record),
      scanOK d f1 off = true → parseLoop d f2 off rid sec = .ok rs →
      flattenRecords rs = d.drop off := by
  intro f2
  induction f2 with
  | zero =>
    intro f1 off rid sec rs _ hp
    simp [parseLoop] at hp
  | succ n ih =>
    intro f1 off rid sec rs hscan hp
    cases f1 with
    | zero => simp [scanOK] at hscan
    | succ g =>
      simp only [parseLoop] at hp
      split at hp
      · cases hp
      · rename_i r hfac
        obtain ⟨pfx, hq, hrdata, -, -⟩ := record_factory_ok_inv hfac
        rw [Nat.add_sub_cancel] at hq
        have hofflt : off < d.length := by
          by_contra hge
          rw [List.getElem?_eq_none (by omega)] at hq
          cases hq
        have hoffne : off ≠ d.length := by omega
        simp only [scanOK] at hscan
        rw [if_neg hoffne, hq] at hscan
        have hscan2 : (decide (off + 1 + pfx ≤ d.length) &&
            scanOK d g (off + 1 + pfx)) = true := hscan
        rw [Bool.and_eq_true, decide_eq_true_eq] at hscan2
        obtain ⟨hfit, hscan3⟩ := hscan2
        have hdlen : d[off] = pfx := by
          rw [List.getElem?_eq_getElem hofflt] at hq
          exact Option.some.inj hq
        have hrlen : r.data.length = pfx := by
          rw [hrdata]
          show ((d.drop (off + 1)).take pfx).length = pfx
          rw [List.length_take, List.length_drop]
          omega
        have hdropoff : d.drop off = pfx :: d.drop (off + 1) := by
          rw [List.drop_eq_getElem_cons hofflt, hdlen]
        split at hp
        · rename_i hend
          simp only [Except.ok.injEq] at hp
          subst hp
          show flattenRecords [r] = d.drop off
          unfold flattenRecords Record.flatten
          simp only [List.map_cons, List.map_nil, List.flatten_cons,
            List.flatten_nil, List.append_nil]
          rw [hdropoff, hrlen, hrdata]
          show pfx :: (d.drop (off + 1)).take pfx = pfx :: d.drop (off + 1)
          congr 1
          apply List.take_of_length_le
          rw [List.length_drop]
          omega
        · rename_i hend
          split at hp
          · rename_i rs' hrec
            simp only [Except.ok.injEq] at hp
            subst hp
            have hscan4 : scanOK d g (off + 1 + r.data.length) = true := by
              rw [hrlen]
              exact hscan3
            have hrest := ih g (off + 1 + r.data.length) (rid + 1)
              (advanceSection rid sec) rs' hscan4 hrec
            show flattenRecords (r :: rs') = d.drop off
            unfold flattenRecords Record.flatten at hrest ⊢
            simp only [List.map_cons, List.flatten_cons] at hrest ⊢
            rw [hdropoff, List.cons_append, hrlen]
            congr 1
            rw [hrest]
            have hidx : off + 1 + r.data.length = off + 1 + pfx := by omega
            rw [hidx, hrdata]
            have hdd : d.drop (off + 1 + pfx) = (d.drop (off + 1)).drop pfx := by
              rw [List.drop_drop]
            rw [hdd]
            exact List.take_append_drop pfx (d.drop (off + 1))
          · cases hp

/-- chr then ord is the identity on valid printable codes. -/
theorem char_toNat_ofNat {c : Nat} (h : c ≤ 126) : (Char.ofNat c).toNat = c := by
  have hv : c.isValidChar := Or.inl (by omega)
  rw [Char.ofNat, dif_pos hv]
  rfl

/-- C1 (amended): for every dump the SysexPatch constructor accepts in
which the nibble region has even length, every nibble byte is below 16
(as the device emits), the 16 decoded name bytes are printable ASCII,
and every record's declared length lies fully inside the payload (the
canonical scan), re-encoding the decoded patch reproduces the input
byte-for-byte. -/
theorem to_raw_sysex_roundtrip :
    ∀ (d : List Nat) (pt : SysexPatch),
      SysexPatch.init d = .ok pt →
      (d.length - 8) % 2 = 0 →
      (∀ b ∈ (d.drop 7).dropLast, b < 16) →
      scanOK pt.data (pt.data.length + 1) 18 = true →
      (∀ c ∈ pt.data.take 16, 32 ≤ c ∧ c ≤ 126) →
      SysexPatch.to_raw_sysex pt = .ok d := by
  intro d pt hinit heven hnib hscan hname
  unfold SysexPatch.init at hinit
  split at hinit
  · cases hinit
  · rename_i p hunp
    split at hinit
    · cases hinit
    · rename_i rs hifp
      simp only [Except.ok.injEq] at hinit
      subst hinit
      rw [unpack_ok_iff] at hunp
      obtain ⟨hFp, h6, hLast, hall, hpEq⟩ := hunp
      unfold initFromPayload at hifp
      split at hifp
      · cases hifp
      · rename_i val hck
        cases val
        obtain ⟨hi, lo, hba, hsz⟩ := checkSize_ok_inv hck
        have hbalen : (Data.bytearray p 16 2).length = 2 := by rw [hba]; rfl
        have hplen : 18 ≤ p.length := by
          unfold Data.bytearray at hbalen
          rw [List.length_take, List.length_drop] at hbalen
          omega
        have h16 : 16 < p.length := by omega
        have h17 : 17 < p.length := by omega
        have e1 : p.drop 16 = p[16] :: p.drop 17 := List.drop_eq_getElem_cons h16
        have e2 : p.drop 17 = p[17] :: p.drop 18 := List.drop_eq_getElem_cons h17
        have e3 : Data.bytearray p 16 2 = [p[16], p[17]] := by
          show (p.drop 16).take 2 = _
          rw [e1, e2]
          rfl
        have hhi : hi = p[16] := by
          rw [e3] at hba
          injection hba with ha _
          exact ha.symm
        have hlo : lo = p[17] := by
          rw [e3] at hba
          injection hba with _ hb
          injection hb with hb _
          exact hb.symm
        have hallp : ∀ x ∈ p, x < 256 := by
          intro x hx
          rw [← hpEq] at hall
          have := List.all_eq_true.mp hall x hx
          exact of_decide_eq_true this
        have hhi256 : p[16] < 256 := hallp _ (List.getElem_mem _)
        have hlo256 : p[17] < 256 := hallp _ (List.getElem_mem _)
        rw [hhi, hlo] at hsz
        have hu : p[16] * 256 + p[17] = p.length - 18 := by
          unfold toSigned16 at hsz
          split at hsz <;> omega
        have hba16 : Data.bytearray p 0 16 = p.take 16 := by
          show (p.drop 0).take 16 = p.take 16
          rw [List.drop_zero]
        have hnm : Data.string p 0 16 = .ok ⟨(p.take 16).map Char.ofNat⟩ := by
          unfold Data.string
          rw [if_neg (by norm_num), hba16]
          exact strDecode_ok_of_printable _ (fun c hc => hname c hc)
        have hnb : ((p.take 16).map Char.ofNat).map Char.toNat = p.take 16 := by
          rw [List.map_map]
          have hpt : ∀ c ∈ p.take 16, (Char.toNat ∘ Char.ofNat) c = id c := by
            intro c hc
            exact char_toNat_ofNat (hname c hc).2
          rw [List.map_congr_left hpt, List.map_id]
        have hraw : flattenRecords rs = p.drop 18 := by
          unfold parse_records at hifp
          exact parse_flatten_inv p (p.length + 1) (p.length + 1) 18 1
            Section.faders rs hscan hifp
        have hrawlen : (flattenRecords rs).length = p.length - 18 := by
          rw [hraw, List.length_drop]
        have hstb : short_to_bytes (flattenRecords rs).length = [p[16], p[17]] := by
          rw [hrawlen]
          unfold short_to_bytes
          have hdiv : (p.length - 18) >>> 8 = p[16] := by
            rw [Nat.shiftRight_eq_div_pow, ← hu,
              show (2 : Nat) ^ 8 = 256 from by norm_num, Nat.mul_comm,
              Nat.mul_add_div (by norm_num), Nat.div_eq_of_lt hlo256]
            omega
          have hmod : (p.length - 18) &&& 0xff = p[17] := by
            rw [show (0xff : Nat) = 2 ^ 8 - 1 from by norm_num,
              Nat.and_pow_two_sub_one_eq_mod, ← hu,
              show (2 : Nat) ^ 8 = 256 from by norm_num, Nat.mul_comm,
              Nat.mul_add_mod, Nat.mod_eq_of_lt hlo256]
          rw [hdiv, hmod]
        have hfl : SysexPatch.flatten ⟨d, p, rs⟩ = .ok p := by
          unfold SysexPatch.flatten SysexPatch.name
          simp only [hnm]
          rw [hnb, show 16 - (p.take 16).length = 0 from by rw [List.length_take]; omega]
          simp only [List.replicate_zero, List.append_nil]
          rw [hstb, hraw]
          have hjoin : p.take 16 ++ ([p[16], p[17]] ++ p.drop 18) = p := by
            rw [show ([p[16], p[17]] ++ p.drop 18 : List Nat) = p.drop 16 from by
              rw [e1, e2]; rfl]
            exact List.take_append_drop 16 p
          rw [List.append_assoc, hjoin]
        have h6ltd : 6 < d.length := by
          by_contra hge
          rw [List.getElem?_eq_none (by omega)] at h6
          cases h6
        have h5ltd : 5 < d.length := by omega
        have hchx : ∃ c5, SysexPatch.global_channel ⟨d, p, rs⟩ = .ok c5 ∧
            d[5]? = some c5 := by
          refine ⟨d[5], ?_, List.getElem?_eq_getElem h5ltd⟩
          unfold SysexPatch.global_channel Data.byte
          simp only [List.getElem?_eq_getElem h5ltd]
        obtain ⟨c5, hch, hc5d⟩ := hchx
        unfold SysexPatch.to_raw_sysex
        simp only [hfl, hch]
        rw [Except.ok.injEq]
        obtain ⟨t, hdt⟩ := List.getLast?_eq_some_iff.mp hLast
        subst hdt
        have hplen2 : p.length = ((t ++ [0xF7]).length - 7) / 2 := by
          rw [hpEq, nibblePairs_length, List.length_drop]
        rw [List.length_append] at hplen2
        have htlen : 8 ≤ t.length := by
          simp only [List.length_cons, List.length_nil] at hplen2
          omega
        have hdropt : (t ++ [0xF7]).drop 7 = t.drop 7 ++ [0xF7] :=
          List.drop_append_of_le_length (by omega)
        have hNeven : (t.drop 7).length % 2 = 0 := by
          rw [List.length_drop]
          rw [List.length_append] at heven
          simp only [List.length_cons, List.length_nil] at heven
          omega
        have hNnib : ∀ b ∈ t.drop 7, b < 16 := by
          intro b hb
          apply hnib
          rw [hdropt, List.dropLast_concat]
          exact hb
        have hpN : p = nibblePairs (t.drop 7) := by
          rw [hpEq, hdropt, nibblePairs_append_even _ _ hNeven]
          show nibblePairs (t.drop 7) ++ nibblePairs [0xF7] = _
          simp [nibblePairs]
        have hexp : (p.map int_to_nibbles).flatten = t.drop 7 := by
          rw [hpN]
          exact expand_nibblePairs _ hNeven hNnib
        rw [List.take_append_of_le_length (by omega : 5 ≤ t.length)] at hFp
        rw [List.getElem?_append_left (by omega : 6 < t.length)] at h6
        rw [List.getElem?_append_left (by omega : 5 < t.length)] at hc5d
        have ht5lt : 5 < t.length := by omega
        have ht6lt : 6 < t.length := by omega
        have hdrop5 : t.drop 5 = t[5] :: t.drop 6 := List.drop_eq_getElem_cons ht5lt
        have hdrop6 : t.drop 6 = t[6] :: t.drop 7 := List.drop_eq_getElem_cons ht6lt
        have ht5c : t[5] = c5 := by
          rw [List.getElem?_eq_getElem ht5lt] at hc5d
          exact Option.some.inj hc5d
        have h6t : t[6] = 0x04 := by
          rw [List.getElem?_eq_getElem ht6lt] at h6
          exact Option.some.inj h6
        have ht : t = fingerprint ++ c5 :: 0x04 :: t.drop 7 := by
          conv_lhs => rw [← List.take_append_drop 5 t]
          rw [hFp, hdrop5, hdrop6, ht5c, h6t]
        show pack_sysex p c5 = t ++ [0xF7]
        unfold pack_sysex
        rw [hexp]
        conv_rhs => rw [ht]
        simp [List.append_assoc]

/-- C1 witness: the canonical dump round-trips byte-for-byte. -/
theorem to_raw_sysex_roundtrip_witness :
    SysexPatch.to_raw_sysex canonicalPatch = .ok canonicalDump :=
  to_raw_sysex_roundtrip canonicalDump canonicalPatch (by rfl) (by decide)
    (by decide) (by rfl) (by decide)

/-- C7: the CC record with body bytes 0x41, 0, 127, 1, 7, 0 and name
bytes Vol decodes to the document item with type CC, min 0, max 127,
channel 1, cc 7, mode 0 and name Vol; the first byte 0x41 splits into
name length 4 and type tag 1. -/
theorem cc_record_decode_example :
    CC.to_dict ccBytes = .ok ⟨"CC", 0, 127, 1, 7, 0, some ("Vol")⟩ ∧
      int_to_nibbles 0x41 = [4, 1] := by
  constructor
  · rfl
  · rfl

/-- C8 (scenario 5): packing a Setup record with the single channel 1
set to bank 2m, program Off, volume 64, no scene and no sysex produces
exactly the body 01 01 00 01 7F C0 00, and decoding that body yields the
same channel map, no scene (the byte at the scene position is not the
0xFE sentinel), and an empty sysex with length byte 0. -/
theorem setup_record_roundtrip_example :
    Setup.pack ("") [(1, ⟨.folded 2, .off, .num 64⟩)] none [] = .ok setupBody ∧
      Setup.channels setupBody = .ok [(1, ⟨.folded 2, .off, .num 64⟩)] ∧
      Setup.has_scene setupBody = .ok false ∧
      Setup.scene setupBody = .ok none ∧
      Setup.sysex_length setupBody = .ok 0 ∧
      Setup.sysex setupBody = .ok [] := by
  refine ⟨rfl, rfl, rfl, rfl, rfl, rfl⟩

/-- C2 counterexample: overflowDump satisfies every stated success
condition (fingerprint, command byte 4, final byte F7), yet unpack_sysex
does not return the combined payload: the pair (0x10, 0x00) combines to
256, which the bytearray construction rejects with ValueError. -/
theorem unpack_sysex_overflow_cex :
    unpack_sysex overflowDump = .error .valueRange ∧
      overflowDump.take 5 = fingerprint ∧
      overflowDump[6]? = some 0x04 ∧
      overflowDump.getLast? = some 0xF7 := by
  refine ⟨rfl, rfl, rfl, rfl⟩

/-- C4 counterexample: parse_records succeeds on a payload whose scan
lands exactly on the end after a single record, so decoding does not
require the cursor to reach the end at record index 36. -/
theorem parse_records_count_cex :
    parse_records shortPayload = .ok shortPayloadRecords ∧
      shortPayloadRecords.length = 1 := by
  refine ⟨rfl, rfl⟩

/-- C9 counterexample: Disabled.pack ignores its keyword arguments, so
packing a Disabled record with a 16-character name succeeds instead of
failing. -/
theorem pack_name_length_disabled_cex :
    15 < ("0123456789ABCDEF" : String).length ∧
      Disabled.pack ("0123456789ABCDEF") = .ok [0x00] := by
  refine ⟨by decide, rfl⟩

/-- C1 counterexample: noncanonicalDump is accepted by the SysexPatch
constructor, but re-encoding the decoded patch yields canonicalDump,
which differs from the input, so encode-after-decode is not the identity
on every accepted dump. -/
theorem to_raw_sysex_noncanonical_cex :
    (SysexPatch.init noncanonicalDump).bind SysexPatch.to_raw_sysex =
        .ok canonicalDump ∧
      canonicalDump ≠ noncanonicalDump := by
  refine ⟨rfl, by decide⟩

end PC1600
